import Mathlib

/-!
Verification of the env-guardian schema/resolution engine.

This development is a shallow embedding of the library's core:

* the validator combinator layer (`src/validators/base.ts` plus the
  concrete scalar validators in `src/validators/*.ts`), modelled as the
  inductive type `Vd` with the evaluator `Vd.parse`;
* the resolution engine (`src/schema.ts`): `parseFlat`, `detectErrorKind`,
  `EnvGuardian.parse` / `EnvGuardian.validate`, group handling, and the
  `forEnv` top-level override pass.

JavaScript host facilities that the scalar validators delegate to — the
`Number(...)` conversion, the WHATWG `new URL(...)` parser, and `RegExp`
objects for `string().matches` — are treated as abstract parameters
(record `JsHost`, structure `JsRegExp`), matching the specification's view
of scalar format rules as external collaborators.  The email regular
expression, in contrast, is written out in the source, and is embedded
here exactly (see `emailRegexTest`).

JavaScript objects are modelled as insertion-ordered association lists
with unique keys; `obj[k] = v` assignment is `setKey` (replace in place
when the key exists, append otherwise), mirroring JS property-order
semantics for non-index string keys.
-/

namespace GuardianEnv

/-- Runtime value universe produced by the validators (JS values). -/
inductive JsValue where
  | vStr (s : String)
  | vNum (q : ℚ)
  | vBool (b : Bool)
  | vUndef
deriving DecidableEq, Repr

/-- Result type `ValidationResult<T>` from `src/types.ts`:
`{ok:true, value}` or `{ok:false, error}`. -/
inductive VResult where
  | ok (value : JsValue)
  | fail (error : String)
deriving DecidableEq, Repr

/-- Abstract JS `RegExp` object: a membership test plus its printed source,
used by `string().matches` (`this._pattern.test(raw)` and
`this._pattern.toString()`). -/
structure JsRegExp where
  test : String → Bool
  str : String

/-- Abstract JS host facilities used by the scalar validators.
`toNum raw` models `Number(raw)` restricted by the guard
`isNaN(parsed) || raw.trim() === ""` in `NumberValidator.parse`:
it is `none` exactly when that guard fires, otherwise the numeric value.
`parseURL raw` models `new URL(raw)`: `none` when the constructor throws,
otherwise the `protocol` (with its trailing colon) and `pathname`. -/
structure JsUrl where
  protocol : String
  pathname : String

structure JsHost where
  toNum : String → Option ℚ
  parseURL : String → Option JsUrl

/-- Occurrence of `needle` as a contiguous sublist of `haystack`. -/
def hasInfix (needle : List Char) : List Char → Bool
  | [] => needle.isEmpty
  | c :: rest => needle.isPrefixOf (c :: rest) || hasInfix needle rest

/-- Containment of `needle` inside `haystack`, i.e. JS
`haystack.includes(needle)`. -/
def containsStr (haystack needle : String) : Bool :=
  hasInfix needle.data haystack.data

/-- JS `toLowerCase()` (ASCII range, which covers every character these
validators and messages use). -/
def strLower (s : String) : String := ⟨s.data.map Char.toLower⟩

/-- JS `trim()`: strip whitespace from both ends. -/
def strTrim (s : String) : String :=
  ⟨((s.data.dropWhile Char.isWhitespace).reverse.dropWhile Char.isWhitespace).reverse⟩

/-- JS `array.join(sep)` on strings. -/
def strJoin (sep : String) : List String → String
  | [] => ""
  | [x] => x
  | x :: xs => x ++ sep ++ strJoin sep xs

/-- JS `protocol.replace(":", "")`: remove the first colon (a string
pattern in JS `replace` substitutes only the first occurrence). -/
def removeFirstColon : List Char → List Char
  | [] => []
  | c :: t => if c = ':' then t else c :: removeFirstColon t

def replaceColon (s : String) : String := ⟨removeFirstColon s.data⟩

/-- Split of a character list at every occurrence of the separator
character (the shape of `s.split(sep)`, used to decompose the email
regex). -/
def splitOnChar (sep : Char) : List Char → List (List Char)
  | [] => [[]]
  | c :: t =>
    if c = sep then [] :: splitOnChar sep t
    else
      match splitOnChar sep t with
      | [] => [[c]]
      | h :: r => (c :: h) :: r

/-- Character class of the local part of `EMAIL_REGEX` in
`src/validators/email.ts`: alphanumerics plus
`. ! # $ % & ' * + / = ? ^ _ \x60 \x7b | \x7d ~ -`
(codes are used for the apostrophe, backtick and braces). -/
def emailLocalSpecials : List Char :=
  ['.', '!', '#', '$', '%', '&', Char.ofNat 39, '*', '+', '/', '=', '?',
   '^', '_', Char.ofNat 96, Char.ofNat 123, '|', Char.ofNat 125, '~', '-']

def isEmailLocalChar (c : Char) : Bool :=
  c.isAlphanum || emailLocalSpecials.contains c

/-- Domain label `[a-zA-Z0-9](?:[a-zA-Z0-9-]{0,61}[a-zA-Z0-9])?`:
length 1–63, alphanumeric at both ends, alphanumeric-or-dash inside. -/
def isDomainLabel (cs : List Char) : Bool :=
  decide (1 ≤ cs.length) && decide (cs.length ≤ 63) &&
  cs.head?.all Char.isAlphanum && cs.getLast?.all Char.isAlphanum &&
  ((cs.drop 1).dropLast.all fun c => c.isAlphanum || c = '-')

/-- Top-level domain `[a-zA-Z]{2,}`. -/
def isTld (cs : List Char) : Bool :=
  decide (2 ≤ cs.length) && cs.all Char.isAlpha

/-- Domain side of `EMAIL_REGEX`: one or more dot-separated labels followed
by a final TLD part.  Since labels and the TLD cannot contain a dot,
matching the anchored regex is equivalent to splitting on dots and
checking each part. -/
def emailDomainOk (d : List Char) : Bool :=
  let parts := splitOnChar '.' d
  decide (2 ≤ parts.length) && parts.dropLast.all isDomainLabel &&
  parts.getLast?.all isTld

/-- Full-string test of `EMAIL_REGEX` from `src/validators/email.ts`.
Neither side of the pattern may contain `@`, so the anchored regex
matches exactly when the string splits at a unique `@` into a non-empty
local part of local-characters and a well-formed domain. -/
def emailRegexTest (s : String) : Bool :=
  match splitOnChar '@' s.data with
  | [lp, dom] => decide (lp ≠ []) && lp.all isEmailLocalChar && emailDomainOk dom
  | _ => false

-- ─── Validators ──────────────────────────────────────────────────────────────

/-- Shallow embedding of the validator class family: the concrete scalar
validators (`string.ts`, `number.ts`, `boolean.ts`, `url.ts`, `email.ts`,
`enum.ts`, `CustomValidator`) and the wrapper classes from
`validators/base.ts` (`OptionalWrapper`, `DefaultWrapper`,
`DescribedWrapper`).  Builder methods like `min`, `max`, `int`, `port`,
`protocols` only set the option fields of the corresponding constructor. -/
inductive Vd where
  | vstring (minLength maxLength : Option Nat) (pat : Option JsRegExp)
  | vnumber (mn mx : Option ℚ) (integer : Bool)
  | vboolean
  | vurl (protocols : List String)
  | vemail
  | venum (values : List String)
  | vcustom (f : String → VResult)
  | voptional (inner : Vd)
  | vdefault (inner : Vd) (d : JsValue)
  | vdescribe (inner : Vd)

/-- The `_type` metadata tag of a validator (wrappers inherit the inner
validator's tag, as their constructors pass `inner._type` to `super`). -/
def Vd.typeName : Vd → String
  | .vstring _ _ _ => "string"
  | .vnumber _ _ _ => "number"
  | .vboolean => "boolean"
  | .vurl _ => "url"
  | .vemail => "email"
  | .venum values => "enum(" ++ strJoin " | " values ++ ")"
  | .vcustom _ => "custom"
  | .voptional inner => inner.typeName
  | .vdefault inner _ => inner.typeName
  | .vdescribe inner => inner.typeName

/-- True for the built-in base (non-wrapper) validators. -/
def Vd.isBase : Vd → Bool
  | .voptional _ => false
  | .vdefault _ _ => false
  | .vdescribe _ => false
  | _ => true

/-- The check `raw === undefined || raw === ""` that opens every
`parse` body. -/
def isAbsent : Option String → Bool
  | none => true
  | some s => s = ""

/-- Evaluator for `Vd`, transcribing each class's `parse` method. -/
def Vd.parse (host : JsHost) : Vd → Option String → VResult
  | .vstring mn mx pat, raw =>
    match raw with
    | none => .fail "Value is required"
    | some s =>
      if s = "" then .fail "Value is required"
      else if mn.isSome ∧ s.length < mn.getD 0 then
        .fail ("Must be at least " ++ toString (mn.getD 0) ++
               " characters long (got " ++ toString s.length ++ ")")
      else if mx.isSome ∧ mx.getD 0 < s.length then
        .fail ("Must be at most " ++ toString (mx.getD 0) ++
               " characters long (got " ++ toString s.length ++ ")")
      else
        match pat with
        | some r => if r.test s then .ok (.vStr s) else .fail ("Must match pattern " ++ r.str)
        | none => .ok (.vStr s)
  | .vnumber mn mx integer, raw =>
    match raw with
    | none => .fail "Value is required"
    | some s =>
      if s = "" then .fail "Value is required"
      else
        match host.toNum s with
        | none => .fail ("Expected a number, got \"" ++ s ++ "\"")
        | some q =>
          if integer ∧ ¬ q.isInt then
            .fail ("Expected an integer, got \"" ++ s ++ "\"")
          else if mn.isSome ∧ q < mn.getD 0 then
            .fail ("Must be at least " ++ toString (mn.getD 0) ++
                   " (got " ++ toString q ++ ")")
          else if mx.isSome ∧ mx.getD 0 < q then
            .fail ("Must be at most " ++ toString (mx.getD 0) ++
                   " (got " ++ toString q ++ ")")
          else .ok (.vNum q)
  | .vboolean, raw =>
    match raw with
    | none => .fail "Value is required"
    | some s =>
      if s = "" then .fail "Value is required"
      else
        let normalized := strTrim (strLower s)
        if ["true", "1", "yes", "on"].contains normalized then .ok (.vBool true)
        else if ["false", "0", "no", "off"].contains normalized then .ok (.vBool false)
        else .fail ("Expected a boolean (true/false/1/0/yes/no/on/off), got \"" ++ s ++ "\"")
  | .vurl protocols, raw =>
    match raw with
    | none => .fail "Value is required"
    | some s =>
      if s = "" then .fail "Value is required"
      else
        match host.parseURL s with
        | none => .fail ("Expected a valid URL, got \"" ++ s ++ "\"")
        | some u =>
          let protocol := replaceColon u.protocol
          if ¬ protocols.contains protocol then
            .fail ("URL protocol must be one of [" ++ strJoin ", " protocols ++
                   "], got \"" ++ protocol ++ "\"")
          else if containsStr u.pathname "//" then
            .fail ("URL path must not contain consecutive slashes, got \"" ++ s ++ "\"")
          else .ok (.vStr s)
  | .vemail, raw =>
    match raw with
    | none => .fail "Value is required"
    | some s =>
      if s = "" then .fail "Value is required"
      else if emailRegexTest s then .ok (.vStr s)
      else .fail ("Expected a valid email address, got \"" ++ s ++ "\"")
  | .venum values, raw =>
    match raw with
    | none => .fail "Value is required"
    | some s =>
      if s = "" then .fail "Value is required"
      else if values.contains s then .ok (.vStr s)
      else .fail ("Expected one of [" ++
                  strJoin ", " (values.map fun v => "\"" ++ v ++ "\"") ++
                  "], got \"" ++ s ++ "\"")
  | .vcustom f, raw =>
    match raw with
    | none => .fail "Value is required"
    | some s => if s = "" then .fail "Value is required" else f s
  | .voptional inner, raw =>
    match raw with
    | none => .ok .vUndef
    | some s => if s = "" then .ok .vUndef else inner.parse host (some s)
  | .vdefault inner d, raw =>
    match raw with
    | none => .ok d
    | some s => if s = "" then .ok d else inner.parse host (some s)
  | .vdescribe inner, raw => inner.parse host raw

-- ─── Error model and classification ──────────────────────────────────────────

/-- The four error kinds of `EnvError["kind"]` in `src/types.ts`. -/
inductive ErrorKind where
  | missing
  | invalidType
  | invalidFormat
  | invalidValue
deriving DecidableEq, Repr

/-- Structured `EnvError` record. -/
structure EnvError where
  key : String
  kind : ErrorKind
  message : String
  received : Option String
  expected : String
deriving DecidableEq, Repr

/-- Transcription of `detectErrorKind` in `src/schema.ts` lines 83–96. -/
def detectErrorKind (message : String) : ErrorKind :=
  if containsStr (strLower message) "required" then .missing
  else if containsStr (strLower message) "type" || containsStr (strLower message) "expected a" then
    .invalidType
  else if containsStr (strLower message) "url" || containsStr (strLower message) "email" ||
          containsStr (strLower message) "pattern" then
    .invalidFormat
  else .invalidValue

/-- Construction of the `EnvError` pushed by the engine on a validator
failure: kind is `missing` when `raw === undefined || raw === ""`,
otherwise `detectErrorKind` of the failure message (`src/schema.ts`
lines 69–76, 151–158, 176–191 all use this same shape). -/
def mkError (envKey : String) (raw : Option String) (msg : String) (vd : Vd) : EnvError :=
  { key := envKey
    kind := if isAbsent raw then .missing else detectErrorKind msg
    message := msg
    received := raw
    expected := vd.typeName }

-- ─── Schema shapes and the environment ───────────────────────────────────────

/-- A flat schema: JS object mapping field keys to validators, modelled as
an insertion-ordered association list. -/
abbrev FlatShape := List (String × Vd)

/-- A `group(...)` value (`GroupSchema`): optional env-key prefix,
optional per-NODE_ENV override table, and the base shape. -/
structure GroupS where
  pfx : Option String
  envSpecific : Option (List (String × FlatShape))
  shape : FlatShape

/-- A top-level schema entry: a plain validator or a group. -/
inductive SchemaEntry where
  | validator (v : Vd)
  | grp (g : GroupS)

abbrev Schema := List (String × SchemaEntry)

/-- An environment snapshot: lookup of a variable name. -/
abbrev Env := String → Option String

/-- Result values stored in the output object: a scalar for a flat field,
a nested object for a group key. -/
inductive ResVal where
  | scalar (v : JsValue)
  | obj (m : List (String × JsValue))
deriving DecidableEq, Repr

/-- JS object-property assignment `m[k] = v`: replace the entry in place
when the key exists (keeping its position), append otherwise.  JS object
keys are unique, so replacing the first occurrence is exact. -/
def setKey {α : Type} : List (String × α) → String → α → List (String × α)
  | [], k, v => [(k, v)]
  | kv :: t, k, v => if kv.1 = k then (k, v) :: t else kv :: setKey t k v

/-- Shape merging `Object.assign({...shape}, override)` from `parseFlat`
(lines 56–59): keys of the base keep their position (their validator
replaced when overridden), new override keys are appended. -/
def mergeShape (base ov : FlatShape) : FlatShape :=
  (base.map fun kv =>
    match ov.lookup kv.1 with
    | some w => (kv.1, w)
    | none => kv) ++
  ov.filter fun kv => (base.lookup kv.1).isNone

/-- The merged shape used by `parseFlat`: the override for the current
`nodeEnv` is merged over the base when the table has one.  The JS guard is
`envSpecific && nodeEnv && nodeEnv in envSpecific`, so an empty-string
`nodeEnv` (falsy) disables merging. -/
def mergedShape (shape : FlatShape) (nodeEnv : Option String)
    (envSpecific : Option (List (String × FlatShape))) : FlatShape :=
  match envSpecific, nodeEnv with
  | some es, some ne =>
    if ne = "" then shape
    else
      match es.lookup ne with
      | some ov => mergeShape shape ov
      | none => shape
  | _, _ => shape

-- ─── Resolution engine: parseFlat ────────────────────────────────────────────

/-- Accumulator state of the engine loops: the values object and the
ordered error list. -/
abbrev EngineSt := List (String × ResVal) × List EnvError

/-- Loop body of `parseFlat` (lines 61–78) for one `[key, validator]`
entry of the merged shape; `envKey` is `pfx ++ kv.1` and `raw` its
environment value. -/
def parseFlatStep (host : JsHost) (env : Env) (pfx : String)
    (acc : List (String × JsValue) × List EnvError) (kv : String × Vd) :
    List (String × JsValue) × List EnvError :=
  match kv.2.parse host (env (pfx ++ kv.1)) with
  | .ok v => (setKey acc.1 kv.1 v, acc.2)
  | .fail m => (acc.1, acc.2 ++ [mkError (pfx ++ kv.1) (env (pfx ++ kv.1)) m kv.2])

/-- Transcription of `parseFlat` (`src/schema.ts` lines 45–81).  Note
`prefix ? prefix + key : key` equals `prefix ++ key` in both branches. -/
def parseFlat (host : JsHost) (shape : FlatShape) (env : Env) (pfx : String)
    (nodeEnv : Option String) (envSpecific : Option (List (String × FlatShape))) :
    List (String × JsValue) × List EnvError :=
  (mergedShape shape nodeEnv envSpecific).foldl (parseFlatStep host env pfx) ([], [])

-- ─── Resolution engine: Guardian ─────────────────────────────────────────────

/-- Loop body of the first phase of `EnvGuardian.parse` (lines 127–161):
groups run `parseFlat`, plain validators parse their own key.  The
`stripTypes` conditional in the source stores `parseResult.value` in both
branches and is therefore omitted. -/
def baseStep (host : JsHost) (env : Env) (nodeEnv : Option String)
    (acc : EngineSt) (kv : String × SchemaEntry) : EngineSt :=
  match kv.2 with
  | .grp g =>
    let fr := parseFlat host g.shape env (g.pfx.getD "") nodeEnv g.envSpecific
    (setKey acc.1 kv.1 (.obj fr.1), acc.2 ++ fr.2)
  | .validator vd =>
    match vd.parse host (env kv.1) with
    | .ok v => (setKey acc.1 kv.1 (.scalar v), acc.2)
    | .fail m => (acc.1, acc.2 ++ [mkError kv.1 (env kv.1) m vd])

/-- First phase of `EnvGuardian.parse`: walk the schema entries. -/
def basePass (host : JsHost) (schema : Schema) (env : Env) (nodeEnv : Option String) :
    EngineSt :=
  schema.foldl (baseStep host env nodeEnv) ([], [])

/-- Removal of the first error with the given key
(`findIndex` + `splice(idx, 1)`, lines 173–174); no-op when absent. -/
def eraseFirstByKey : List EnvError → String → List EnvError
  | [], _ => []
  | e :: t, k => if e.key = k then t else e :: eraseFirstByKey t k

/-- In-place update of the first error with the given key (lines 177–182:
the found error's `kind`, `message`, `received`, `expected` fields are
overwritten; its `key` already equals `k`). -/
def updateFirstByKey : List EnvError → String → EnvError → List EnvError
  | [], _, _ => []
  | e :: t, k, e2 => if e.key = k then e2 :: t else e :: updateFirstByKey t k e2

/-- Loop body of the override phase of `EnvGuardian.parse`
(lines 166–193) for one `[key, validator]` override entry. -/
def applyOverride (host : JsHost) (env : Env) (acc : EngineSt) (kv : String × Vd) :
    EngineSt :=
  match kv.2.parse host (env kv.1) with
  | .ok v => (setKey acc.1 kv.1 (.scalar v), eraseFirstByKey acc.2 kv.1)
  | .fail m =>
    if acc.2.any fun er => er.key == kv.1 then
      (acc.1, updateFirstByKey acc.2 kv.1 (mkError kv.1 (env kv.1) m kv.2))
    else (acc.1, acc.2 ++ [mkError kv.1 (env kv.1) m kv.2])

/-- Second phase of `EnvGuardian.parse`: apply the active top-level
override entries in order. -/
def overridePass (host : JsHost) (ovs : FlatShape) (env : Env) (st : EngineSt) : EngineSt :=
  ovs.foldl (applyOverride host env) st

/-- The active top-level override table: guard
`this._globalEnvSpecific && nodeEnv && nodeEnv in this._globalEnvSpecific`
(line 164); empty when inactive. -/
def activeOverrides (globalEnvSpecific : Option (List (String × FlatShape)))
    (nodeEnv : Option String) : FlatShape :=
  match globalEnvSpecific, nodeEnv with
  | some es, some ne => if ne = "" then [] else (es.lookup ne).getD []
  | _, _ => []

/-- The `EnvGuardian` façade: a schema plus the optional `forEnv` table. -/
structure Guardian where
  schema : Schema
  globalEnvSpecific : Option (List (String × FlatShape))

/-- `defineEnv`. -/
def defineEnv (schema : Schema) : Guardian := ⟨schema, none⟩

/-- `EnvGuardian.forEnv`. -/
def Guardian.forEnv (g : Guardian) (es : List (String × FlatShape)) : Guardian :=
  { g with globalEnvSpecific := some es }

/-- The engine state just before the throw decision of
`EnvGuardian.parse`: base pass then override pass. -/
def Guardian.parseState (g : Guardian) (host : JsHost) (env : Env)
    (nodeEnv : Option String) : EngineSt :=
  overridePass host (activeOverrides g.globalEnvSpecific nodeEnv) env
    (basePass host g.schema env nodeEnv)

/-- Transcription of `EnvGuardian.parse` (lines 121–201): throwing
`EnvValidationError(allErrors)` is modelled as `Except.error allErrors`
(the exception stores the error list unchanged, see `formatter`'s
`EnvValidationError` constructor in the bundled output). -/
def Guardian.parse (g : Guardian) (host : JsHost) (env : Env) (nodeEnv : Option String) :
    Except (List EnvError) (List (String × ResVal)) :=
  let st := g.parseState host env nodeEnv
  if st.2 = [] then .ok st.1 else .error st.2

/-- Transcription of `EnvGuardian.validate` (lines 206–216): run `parse`,
return `[]` on success and the caught exception's error list on failure. -/
def Guardian.validate (g : Guardian) (host : JsHost) (env : Env)
    (nodeEnv : Option String) : List EnvError :=
  match g.parse host env nodeEnv with
  | .ok _ => []
  | .error es => es

-- ─── Association-list lemmas ─────────────────────────────────────────────────

theorem lookup_cons {α : Type} (k k' : String) (v : α) (t : List (String × α)) :
    ((k', v) :: t).lookup k = if k = k' then some v else t.lookup k := by
  by_cases h : k = k'
  · subst h; simp [List.lookup]
  · have hb : (k == k') = false := beq_eq_false_iff_ne.mpr h
    simp [List.lookup, hb, h]

theorem lookup_append_of_none {α : Type} {l₁ : List (String × α)} {k : String}
    (l₂ : List (String × α)) (h : l₁.lookup k = none) :
    (l₁ ++ l₂).lookup k = l₂.lookup k := by
  induction l₁ with
  | nil => simp
  | cons kv t ih =>
    rcases kv with ⟨k', v⟩
    rw [lookup_cons] at h
    rw [List.cons_append, lookup_cons]
    by_cases hk : k = k'
    · rw [if_pos hk] at h; exact absurd h (by simp)
    · rw [if_neg hk] at h
      rw [if_neg hk]
      exact ih h

theorem lookup_setKey_self {α : Type} (m : List (String × α)) (k : String) (v : α) :
    (setKey m k v).lookup k = some v := by
  induction m with
  | nil => simp [setKey, lookup_cons]
  | cons kv t ih =>
    rcases kv with ⟨k', v'⟩
    by_cases h : k' = k
    · subst h; simp [setKey, lookup_cons]
    · rw [show setKey ((k', v') :: t) k v = (k', v') :: setKey t k v from by
        simp [setKey, h]]
      rw [lookup_cons, if_neg (fun he => h he.symm)]
      exact ih

theorem lookup_setKey_ne {α : Type} (m : List (String × α)) {k k' : String} (v : α)
    (h : k' ≠ k) : (setKey m k v).lookup k' = m.lookup k' := by
  induction m with
  | nil => simp [setKey, lookup_cons, h]
  | cons kv t ih =>
    rcases kv with ⟨k1, v1⟩
    by_cases hk : k1 = k
    · subst hk
      rw [show setKey ((k1, v1) :: t) k1 v = (k1, v) :: t from by simp [setKey]]
      rw [lookup_cons, lookup_cons]
      simp [h]
    · rw [show setKey ((k1, v1) :: t) k v = (k1, v1) :: setKey t k v from by
        simp [setKey, hk]]
      rw [lookup_cons, lookup_cons]
      by_cases hk' : k' = k1
      · simp [hk']
      · rw [if_neg hk', if_neg hk']
        exact ih

theorem setKey_of_not_mem {α : Type} {m : List (String × α)} {k : String} (v : α)
    (h : m.lookup k = none) : setKey m k v = m ++ [(k, v)] := by
  induction m with
  | nil => simp [setKey]
  | cons kv t ih =>
    rcases kv with ⟨k', v'⟩
    rw [lookup_cons] at h
    by_cases hk : k = k'
    · rw [if_pos hk] at h; exact absurd h (by simp)
    · rw [if_neg hk] at h
      have hk' : ¬(k' = k) := fun he => hk he.symm
      rw [show setKey ((k', v') :: t) k v = (k', v') :: setKey t k v from by
        simp [setKey, hk']]
      rw [List.cons_append]
      exact congrArg _ (ih h)

theorem lookup_eq_some_of_mem_nodup {α : Type} {l : List (String × α)} {k : String}
    {v : α} (hnd : (l.map Prod.fst).Nodup) (hm : (k, v) ∈ l) : l.lookup k = some v := by
  induction l with
  | nil => cases hm
  | cons kv t ih =>
    rcases kv with ⟨k', v'⟩
    simp only [List.map_cons, List.nodup_cons] at hnd
    rw [lookup_cons]
    rcases List.mem_cons.mp hm with h | h
    · cases h; simp
    · have hk : k ≠ k' := by
        intro he; subst he
        exact hnd.1 (List.mem_map.mpr ⟨(k, v), h, rfl⟩)
      simp [hk]
      exact ih hnd.2 h

-- ─── Characterizing parseFlat as a per-field computation ─────────────────────

/-- The value contributed by one merged-shape field, when its validator
succeeds on the raw environment value of its prefixed key. -/
def okCase (host : JsHost) (env : Env) (pfx : String) (kv : String × Vd) :
    Option (String × JsValue) :=
  match kv.2.parse host (env (pfx ++ kv.1)) with
  | .ok v => some (kv.1, v)
  | .fail _ => none

/-- The error contributed by one merged-shape field, when its validator
fails on the raw environment value of its prefixed key. -/
def failCase (host : JsHost) (env : Env) (pfx : String) (kv : String × Vd) :
    Option EnvError :=
  match kv.2.parse host (env (pfx ++ kv.1)) with
  | .ok _ => none
  | .fail m => some (mkError (pfx ++ kv.1) (env (pfx ++ kv.1)) m kv.2)

theorem foldFlat_errors (host : JsHost) (env : Env) (pfx : String) (l : FlatShape) :
    ∀ acc : List (String × JsValue) × List EnvError,
    (l.foldl (parseFlatStep host env pfx) acc).2 =
      acc.2 ++ l.filterMap (failCase host env pfx) := by
  induction l with
  | nil => intro acc; simp
  | cons kv t ih =>
    intro acc
    cases h : kv.2.parse host (env (pfx ++ kv.1)) with
    | ok v =>
      have hstep : parseFlatStep host env pfx acc kv = (setKey acc.1 kv.1 v, acc.2) := by
        simp [parseFlatStep, h]
      have hfc : failCase host env pfx kv = none := by simp [failCase, h]
      rw [List.foldl_cons, hstep, ih, List.filterMap_cons, hfc]
    | fail m =>
      have hstep : parseFlatStep host env pfx acc kv =
          (acc.1, acc.2 ++ [mkError (pfx ++ kv.1) (env (pfx ++ kv.1)) m kv.2]) := by
        simp [parseFlatStep, h]
      have hfc : failCase host env pfx kv =
          some (mkError (pfx ++ kv.1) (env (pfx ++ kv.1)) m kv.2) := by
        simp [failCase, h]
      rw [List.foldl_cons, hstep, ih, List.filterMap_cons, hfc]
      simp

theorem foldFlat_values (host : JsHost) (env : Env) (pfx : String) (l : FlatShape) :
    ∀ acc : List (String × JsValue) × List EnvError,
    (l.map Prod.fst).Nodup → (∀ kv ∈ l, acc.1.lookup kv.1 = none) →
    (l.foldl (parseFlatStep host env pfx) acc).1 =
      acc.1 ++ l.filterMap (okCase host env pfx) := by
  induction l with
  | nil => intro acc _ _; simp
  | cons kv t ih =>
    intro acc hnd hdisj
    simp only [List.map_cons, List.nodup_cons] at hnd
    have hacc : acc.1.lookup kv.1 = none := hdisj kv (List.mem_cons_self kv t)
    cases h : kv.2.parse host (env (pfx ++ kv.1)) with
    | ok v =>
      have hstep : parseFlatStep host env pfx acc kv = (acc.1 ++ [(kv.1, v)], acc.2) := by
        simp [parseFlatStep, h, setKey_of_not_mem v hacc]
      have hoc : okCase host env pfx kv = some (kv.1, v) := by simp [okCase, h]
      have ht : ∀ kv' ∈ t, ((acc.1 ++ [(kv.1, v)], acc.2) :
          List (String × JsValue) × List EnvError).1.lookup kv'.1 = none := by
        intro kv' hm
        have hne : kv'.1 ≠ kv.1 := by
          intro he
          exact hnd.1 (he ▸ List.mem_map.mpr ⟨kv', hm, rfl⟩)
        show ((acc.1 ++ [(kv.1, v)]).lookup kv'.1) = none
        rw [lookup_append_of_none _ (hdisj kv' (List.mem_cons_of_mem kv hm))]
        rw [lookup_cons, if_neg hne]
        simp [List.lookup]
      rw [List.foldl_cons, hstep, ih _ hnd.2 ht, List.filterMap_cons, hoc]
      simp
    | fail m =>
      have hstep : parseFlatStep host env pfx acc kv =
          (acc.1, acc.2 ++ [mkError (pfx ++ kv.1) (env (pfx ++ kv.1)) m kv.2]) := by
        simp [parseFlatStep, h]
      have hoc : okCase host env pfx kv = none := by simp [okCase, h]
      have ht : ∀ kv' ∈ t,
          ((acc.1, acc.2 ++ [mkError (pfx ++ kv.1) (env (pfx ++ kv.1)) m kv.2]) :
          List (String × JsValue) × List EnvError).1.lookup kv'.1 = none := by
        intro kv' hm
        exact hdisj kv' (List.mem_cons_of_mem kv hm)
      rw [List.foldl_cons, hstep, ih _ hnd.2 ht, List.filterMap_cons, hoc]

theorem parseFlat_errors_eq (host : JsHost) (shape : FlatShape) (env : Env)
    (pfx : String) (nodeEnv : Option String)
    (envSpecific : Option (List (String × FlatShape))) :
    (parseFlat host shape env pfx nodeEnv envSpecific).2 =
      (mergedShape shape nodeEnv envSpecific).filterMap (failCase host env pfx) := by
  unfold parseFlat
  rw [foldFlat_errors]
  simp

theorem parseFlat_values_eq (host : JsHost) (shape : FlatShape) (env : Env)
    (pfx : String) (nodeEnv : Option String)
    (envSpecific : Option (List (String × FlatShape)))
    (hnd : ((mergedShape shape nodeEnv envSpecific).map Prod.fst).Nodup) :
    (parseFlat host shape env pfx nodeEnv envSpecific).1 =
      (mergedShape shape nodeEnv envSpecific).filterMap (okCase host env pfx) := by
  unfold parseFlat
  rw [foldFlat_values host env pfx _ _ hnd (by intro kv _; simp [List.lookup])]
  simp

-- ─── Error-list manipulation lemmas ──────────────────────────────────────────

theorem mem_eraseFirstByKey {l : List EnvError} {k : String} {e : EnvError}
    (h : e ∈ eraseFirstByKey l k) : e ∈ l := by
  induction l with
  | nil => cases h
  | cons e' t ih =>
    by_cases hk : e'.key = k
    · simp only [eraseFirstByKey, if_pos hk] at h
      exact List.mem_cons_of_mem _ h
    · simp only [eraseFirstByKey, if_neg hk, List.mem_cons] at h
      rcases h with h | h
      · exact h ▸ List.mem_cons_self _ _
      · exact List.mem_cons_of_mem _ (ih h)

theorem mem_updateFirstByKey {l : List EnvError} {k : String} {e2 e : EnvError}
    (h : e ∈ updateFirstByKey l k e2) : e ∈ l ∨ e = e2 := by
  induction l with
  | nil => cases h
  | cons e' t ih =>
    by_cases hk : e'.key = k
    · simp only [updateFirstByKey, if_pos hk, List.mem_cons] at h
      rcases h with h | h
      · exact Or.inr h
      · exact Or.inl (List.mem_cons_of_mem _ h)
    · simp only [updateFirstByKey, if_neg hk, List.mem_cons] at h
      rcases h with h | h
      · exact Or.inl (h ▸ List.mem_cons_self _ _)
      · rcases ih h with h' | h'
        · exact Or.inl (List.mem_cons_of_mem _ h')
        · exact Or.inr h'

theorem filter_eraseFirst_of_false {l : List EnvError} {k : String}
    (p : String → Bool) (hp : p k = false) :
    (eraseFirstByKey l k).filter (fun e => p e.key) = l.filter (fun e => p e.key) := by
  induction l with
  | nil => rfl
  | cons e t ih =>
    by_cases hk : e.key = k
    · simp only [eraseFirstByKey, if_pos hk, List.filter_cons, hk, hp]
      simp
    · simp only [eraseFirstByKey, if_neg hk, List.filter_cons, ih]

theorem filter_updateFirst_of_false {l : List EnvError} {k : String} {e2 : EnvError}
    (p : String → Bool) (hp : p k = false) (he2 : p e2.key = false) :
    (updateFirstByKey l k e2).filter (fun e => p e.key) = l.filter (fun e => p e.key) := by
  induction l with
  | nil => rfl
  | cons e t ih =>
    by_cases hk : e.key = k
    · simp only [updateFirstByKey, if_pos hk, List.filter_cons, hk, hp, he2]
      simp [List.filter_cons, he2]
    · simp only [updateFirstByKey, if_neg hk, List.filter_cons, ih]

theorem filterKey_erase_self {l : List EnvError} {k : String}
    (h : (l.filter fun e => e.key == k).length ≤ 1) :
    (eraseFirstByKey l k).filter (fun e => e.key == k) = [] := by
  induction l with
  | nil => rfl
  | cons e t ih =>
    by_cases hk : e.key = k
    · simp only [eraseFirstByKey, if_pos hk]
      have hb : (e.key == k) = true := beq_iff_eq.mpr hk
      rw [List.filter_cons, if_pos hb] at h
      simp only [List.length_cons] at h
      have h0 : (t.filter fun e => e.key == k).length = 0 := by omega
      exact List.length_eq_zero.mp h0
    · have hb : (e.key == k) = false := beq_eq_false_iff_ne.mpr hk
      rw [List.filter_cons, if_neg (by simp [hb])] at h
      simp only [eraseFirstByKey, if_neg hk, List.filter_cons, hb]
      simp only [cond_false, Bool.false_eq_true, if_false]
      exact ih h

theorem filterKey_update_self {l : List EnvError} {k : String} {e2 : EnvError}
    (he2 : e2.key = k) (hone : (l.filter fun e => e.key == k).length ≤ 1)
    (hany : l.any (fun e => e.key == k) = true) :
    (updateFirstByKey l k e2).filter (fun e => e.key == k) = [e2] := by
  induction l with
  | nil => cases hany
  | cons e t ih =>
    by_cases hk : e.key = k
    · simp only [updateFirstByKey, if_pos hk]
      have hb : (e.key == k) = true := beq_iff_eq.mpr hk
      rw [List.filter_cons, if_pos hb] at hone
      simp only [List.length_cons] at hone
      have h0 : (t.filter fun e => e.key == k).length = 0 := by omega
      have ht : (t.filter fun e => e.key == k) = [] := List.length_eq_zero.mp h0
      rw [List.filter_cons, if_pos (by simp [beq_iff_eq, he2]), ht]
    · have hb : (e.key == k) = false := beq_eq_false_iff_ne.mpr hk
      rw [List.filter_cons, if_neg (by simp [hb])] at hone
      rw [List.any_cons] at hany
      simp only [hb, Bool.false_or] at hany
      simp only [updateFirstByKey, if_neg hk, List.filter_cons, hb]
      simp only [cond_false, Bool.false_eq_true, if_false]
      exact ih hone hany

theorem filterKey_append_new {l : List EnvError} {k : String} {e2 : EnvError}
    (he2 : e2.key = k) (hnone : l.any (fun e => e.key == k) = false) :
    (l ++ [e2]).filter (fun e => e.key == k) = [e2] := by
  rw [List.filter_append]
  have hl : l.filter (fun e => e.key == k) = [] := by
    apply List.filter_eq_nil_iff.mpr
    intro e he
    have := List.any_eq_false.mp hnone e he
    simpa using this
  rw [hl]
  simp [beq_iff_eq, he2]

theorem any_key_of_filter_pos {l : List EnvError} {k : String}
    (h : (l.filter fun e => e.key == k) ≠ []) :
    l.any (fun e => e.key == k) = true := by
  rcases List.exists_mem_of_ne_nil _ h with ⟨e, he⟩
  have := List.mem_filter.mp he
  exact List.any_eq_true.mpr ⟨e, this.1, this.2⟩

-- ─── Frame lemmas for the override pass ──────────────────────────────────────

theorem applyOverride_values_ne (host : JsHost) (env : Env) (acc : EngineSt)
    (kv : String × Vd) {k : String} (h : kv.1 ≠ k) :
    (applyOverride host env acc kv).1.lookup k = acc.1.lookup k := by
  cases hp : kv.2.parse host (env kv.1) with
  | ok v =>
    simp only [applyOverride, hp]
    exact lookup_setKey_ne _ _ (Ne.symm h)
  | fail m =>
    simp only [applyOverride, hp]
    split <;> rfl

theorem applyOverride_errors_frame (host : JsHost) (env : Env) (acc : EngineSt)
    (kv : String × Vd) (p : String → Bool) (hp : p kv.1 = false) :
    (applyOverride host env acc kv).2.filter (fun e => p e.key) =
      acc.2.filter (fun e => p e.key) := by
  cases hparse : kv.2.parse host (env kv.1) with
  | ok v =>
    simp only [applyOverride, hparse]
    exact filter_eraseFirst_of_false p hp
  | fail m =>
    simp only [applyOverride, hparse]
    split
    · exact filter_updateFirst_of_false p hp hp
    · rw [List.filter_append]
      simp [mkError, hp]

theorem overridePass_values_frame (host : JsHost) (env : Env) (ovs : FlatShape)
    {k : String} (h : ∀ kv ∈ ovs, kv.1 ≠ k) :
    ∀ st : EngineSt, (overridePass host ovs env st).1.lookup k = st.1.lookup k := by
  induction ovs with
  | nil => intro st; rfl
  | cons kv t ih =>
    intro st
    have hh := h kv (List.mem_cons_self kv t)
    have ht : ∀ kv' ∈ t, kv'.1 ≠ k := fun kv' hm => h kv' (List.mem_cons_of_mem kv hm)
    show (List.foldl (applyOverride host env) _ (kv :: t)).1.lookup k = _
    rw [List.foldl_cons]
    rw [show (List.foldl (applyOverride host env) (applyOverride host env st kv) t) =
      overridePass host t env (applyOverride host env st kv) from rfl]
    rw [ih ht (applyOverride host env st kv)]
    exact applyOverride_values_ne host env st kv hh

theorem overridePass_errors_frame (host : JsHost) (env : Env) (ovs : FlatShape)
    (p : String → Bool) (h : ∀ kv ∈ ovs, p kv.1 = false) :
    ∀ st : EngineSt, (overridePass host ovs env st).2.filter (fun e => p e.key) =
      st.2.filter (fun e => p e.key) := by
  induction ovs with
  | nil => intro st; rfl
  | cons kv t ih =>
    intro st
    have hh := h kv (List.mem_cons_self kv t)
    have ht : ∀ kv' ∈ t, p kv'.1 = false := fun kv' hm => h kv' (List.mem_cons_of_mem kv hm)
    show (List.foldl (applyOverride host env) _ (kv :: t)).2.filter _ = _
    rw [List.foldl_cons]
    rw [show (List.foldl (applyOverride host env) (applyOverride host env st kv) t) =
      overridePass host t env (applyOverride host env st kv) from rfl]
    rw [ih ht (applyOverride host env st kv)]
    exact applyOverride_errors_frame host env st kv p hh

-- ─── The kind invariant ──────────────────────────────────────────────────────

/-- Well-classifiedness of an error record: its kind field is the one the
engine computes from its own received value and message. -/
def kindOk (e : EnvError) : Prop :=
  e.kind = if isAbsent e.received then .missing else detectErrorKind e.message

theorem kindOk_mkError (k : String) (raw : Option String) (m : String) (vd : Vd) :
    kindOk (mkError k raw m vd) := rfl

theorem parseFlat_kindOk (host : JsHost) (shape : FlatShape) (env : Env)
    (pfx : String) (nodeEnv : Option String)
    (envSpecific : Option (List (String × FlatShape))) :
    ∀ e ∈ (parseFlat host shape env pfx nodeEnv envSpecific).2, kindOk e := by
  rw [parseFlat_errors_eq]
  intro e he
  rcases List.mem_filterMap.mp he with ⟨kv, _, hfc⟩
  revert hfc
  cases hp : kv.2.parse host (env (pfx ++ kv.1)) <;> simp [failCase, hp]
  intro h
  exact h ▸ kindOk_mkError _ _ _ _

theorem foldBase_kindOk (host : JsHost) (env : Env) (nodeEnv : Option String)
    (schema : Schema) :
    ∀ acc : EngineSt, (∀ e ∈ acc.2, kindOk e) →
    ∀ e ∈ (schema.foldl (baseStep host env nodeEnv) acc).2, kindOk e := by
  induction schema with
  | nil => intro acc hacc; exact hacc
  | cons kv t ih =>
    intro acc hacc
    rw [List.foldl_cons]
    apply ih
    rcases kv with ⟨k, entry⟩
    cases entry with
    | grp g =>
      simp only [baseStep]
      intro e he
      rcases List.mem_append.mp he with h | h
      · exact hacc e h
      · exact parseFlat_kindOk host g.shape env (g.pfx.getD "") nodeEnv g.envSpecific e h
    | validator vd =>
      cases hp : vd.parse host (env k) with
      | ok v =>
        simp only [baseStep, hp]
        exact hacc
      | fail m =>
        simp only [baseStep, hp]
        intro e he
        rcases List.mem_append.mp he with h | h
        · exact hacc e h
        · rw [List.mem_singleton.mp h]
          exact kindOk_mkError _ _ _ _

theorem overridePass_kindOk (host : JsHost) (env : Env) (ovs : FlatShape) :
    ∀ st : EngineSt, (∀ e ∈ st.2, kindOk e) →
    ∀ e ∈ (overridePass host ovs env st).2, kindOk e := by
  induction ovs with
  | nil => intro st hst; exact hst
  | cons kv t ih =>
    intro st hst
    show ∀ e ∈ (List.foldl (applyOverride host env) _ (kv :: t)).2, kindOk e
    rw [List.foldl_cons]
    apply ih
    cases hp : kv.2.parse host (env kv.1) with
    | ok v =>
      simp only [applyOverride, hp]
      intro e he
      exact hst e (mem_eraseFirstByKey he)
    | fail m =>
      simp only [applyOverride, hp]
      split
      · intro e he
        rcases mem_updateFirstByKey he with h | h
        · exact hst e h
        · exact h ▸ kindOk_mkError _ _ _ _
      · intro e he
        rcases List.mem_append.mp he with h | h
        · exact hst e h
        · rw [List.mem_singleton.mp h]
          exact kindOk_mkError _ _ _ _

theorem parse_def (g : Guardian) (host : JsHost) (env : Env) (nodeEnv : Option String) :
    g.parse host env nodeEnv =
      if (g.parseState host env nodeEnv).2 = [] then .ok (g.parseState host env nodeEnv).1
      else .error (g.parseState host env nodeEnv).2 := rfl

theorem parse_error_kindOk (g : Guardian) (host : JsHost) (env : Env)
    (nodeEnv : Option String) (es : List EnvError)
    (h : g.parse host env nodeEnv = .error es) : ∀ e ∈ es, kindOk e := by
  rw [parse_def] at h
  split at h
  · cases h
  · cases h
    apply overridePass_kindOk
    intro e he
    exact foldBase_kindOk host env nodeEnv g.schema ([], []) (by intro e h; cases h) e he

-- ─── Further shared lemmas ───────────────────────────────────────────────────

theorem parse_error_ne_nil (g : Guardian) (host : JsHost) (env : Env)
    (nodeEnv : Option String) {es : List EnvError}
    (h : g.parse host env nodeEnv = .error es) : es ≠ [] := by
  rw [parse_def] at h
  split at h
  · cases h
  · next hne => cases h; exact hne

theorem vd_parse_empty_eq_none (host : JsHost) (v : Vd) :
    v.parse host (some "") = v.parse host none := by
  induction v <;> simp [Vd.parse, *]

theorem vd_isBase_parse_none (host : JsHost) (v : Vd) (h : v.isBase = true) :
    v.parse host none = .fail "Value is required" := by
  cases v <;> first | rfl | (simp [Vd.isBase] at h)

theorem vd_isBase_parse_absent (host : JsHost) (v : Vd) (raw : Option String)
    (h : v.isBase = true) (habs : isAbsent raw = true) :
    v.parse host raw = .fail "Value is required" := by
  cases raw with
  | none => exact vd_isBase_parse_none host v h
  | some s =>
    have hs : s = "" := by simpa [isAbsent] using habs
    subst hs
    rw [vd_parse_empty_eq_none]
    exact vd_isBase_parse_none host v h

theorem str_beq_eq_decide (a b : String) : (a == b) = decide (a = b) := by
  by_cases h : a = b <;> simp [h]

theorem str_append_left_cancel {s a b : String} (h : s ++ a = s ++ b) : a = b := by
  have hd : s.data ++ a.data = s.data ++ b.data := by
    have := congrArg String.data h
    simpa using this
  have := List.append_cancel_left hd
  cases a; cases b; exact congrArg _ this

/-- The single-field computation of `parseFlat` on a one-entry shape with
no env-specific table. -/
theorem parseFlat_singleton (host : JsHost) (k : String) (vd : Vd) (env : Env)
    (pfx : String) :
    parseFlat host [(k, vd)] env pfx none none =
      match vd.parse host (env (pfx ++ k)) with
      | .ok v => ([(k, v)], [])
      | .fail m => ([], [mkError (pfx ++ k) (env (pfx ++ k)) m vd]) := by
  show (List.foldl (parseFlatStep host env pfx) ([], []) [(k, vd)]) = _
  rw [List.foldl_cons, List.foldl_nil]
  cases h : vd.parse host (env (pfx ++ k)) <;> simp [parseFlatStep, h, setKey]

-- ─── Concrete instances used by witnesses and counterexamples ────────────────

/-- A degenerate host whose `Number` and `URL` facilities always fail;
host facilities are irrelevant to string/email validators. -/
def host0 : JsHost := ⟨fun _ => none, fun _ => none⟩

/-- The bare `string()` validator. -/
def stringVd : Vd := .vstring none none none

-- ─── C1 ──────────────────────────────────────────────────────────────────────

/-- Kind assignment exactly as the specification states it (§4.3 wording):
absent/empty raw value gives `missing` regardless of the message, else the
case-insensitive precedence: "required" → missing; "type" or "expected a"
→ invalid_type; "url", "email" or "pattern" → invalid_format; otherwise
invalid_value. -/
def specKindOf (raw : Option String) (message : String) : ErrorKind :=
  if isAbsent raw then .missing
  else if containsStr (strLower message) "required" then .missing
  else if containsStr (strLower message) "type" || containsStr (strLower message) "expected a" then
    .invalidType
  else if containsStr (strLower message) "url" || containsStr (strLower message) "email" ||
          containsStr (strLower message) "pattern" then
    .invalidFormat
  else .invalidValue

/-- C1: for every field whose validator fails, the engine assigns the
error kind from the raw value and failure message by the specified rule:
absent/empty raw → `missing` regardless of message; otherwise the
case-insensitive precedence "required" → missing, "type"/"expected a" →
invalid_type, "url"/"email"/"pattern" → invalid_format, else
invalid_value.  Stated for every error in the list thrown by the full
engine (`Guardian.parse`), whose `received` field is the raw value and
`message` the validator's failure message. -/
theorem C1_error_kind_assignment (host : JsHost) (g : Guardian) (env : Env)
    (nodeEnv : Option String) (es : List EnvError) (e : EnvError)
    (herr : g.parse host env nodeEnv = .error es) (hmem : e ∈ es) :
    e.kind = specKindOf e.received e.message := by
  have h := parse_error_kindOk g host env nodeEnv es herr e hmem
  unfold kindOk at h
  have hspec : specKindOf e.received e.message =
      if isAbsent e.received then .missing else detectErrorKind e.message := by
    unfold specKindOf detectErrorKind
    rfl
  rw [hspec]
  exact h

/-- Witness for C1 at a concrete failing schema. -/
theorem C1_error_kind_assignment_witness :
    (mkError "API_KEY" none "Value is required" stringVd).kind =
      specKindOf (mkError "API_KEY" none "Value is required" stringVd).received
        (mkError "API_KEY" none "Value is required" stringVd).message :=
  C1_error_kind_assignment host0 (defineEnv [("API_KEY", .validator stringVd)])
    (fun _ => none) none [mkError "API_KEY" none "Value is required" stringVd]
    (mkError "API_KEY" none "Value is required" stringVd) rfl (List.mem_singleton.mpr rfl)

-- ─── C2 ──────────────────────────────────────────────────────────────────────

/-- A host whose URL parser resolves every string to an `ftp:` URL with
pathname `/`, exercising the protocol check. -/
def hostFtp : JsHost := ⟨fun _ => none, fun _ => some ⟨"ftp:", "/"⟩⟩

/-- C2 counterexample: `email()` on the present non-empty input
`"not-an-email"` fails its structural check, but the engine classifies
the error as `invalid_type`, not `invalid_format`: the message
"Expected a valid email address, got ..." matches the "expected a"
trigger, which precedes the url/email/pattern triggers in
`detectErrorKind`. -/
theorem C2_counterexample :
    (defineEnv [("ADMIN_EMAIL", SchemaEntry.validator Vd.vemail)]).parse host0
      (fun k => if k = "ADMIN_EMAIL" then some "not-an-email" else none) none =
    .error [{ key := "ADMIN_EMAIL", kind := .invalidType,
              message := "Expected a valid email address, got \"not-an-email\"",
              received := some "not-an-email", expected := "email" }] ∧
    ErrorKind.invalidType ≠ ErrorKind.invalidFormat :=
  ⟨rfl, by decide⟩

/-- C2 corrected: a present non-empty input failing the email or URL
well-formedness check yields kind `invalid_type` (its message starts
"Expected a valid ...", and the "expected a" trigger precedes the
url/email triggers), provided the message does not also contain
"required"; URL failures whose message lacks the required/type/
"expected a" triggers but contains "url" — the protocol check — are
classified `invalid_format`. -/
theorem C2_amended (host : JsHost) (env : Env) (k pfx s : String)
    (hraw : env (pfx ++ k) = some s) (hs : s ≠ "") :
    (emailRegexTest s = false →
     containsStr (strLower ("Expected a valid email address, got \"" ++ s ++ "\""))
       "required" = false →
     containsStr (strLower ("Expected a valid email address, got \"" ++ s ++ "\""))
       "expected a" = true →
      (parseFlat host [(k, Vd.vemail)] env pfx none none).2 =
        [mkError (pfx ++ k) (some s)
          ("Expected a valid email address, got \"" ++ s ++ "\"") Vd.vemail] ∧
      (mkError (pfx ++ k) (some s)
        ("Expected a valid email address, got \"" ++ s ++ "\"") Vd.vemail).kind =
        .invalidType) ∧
    (host.parseURL s = none →
     containsStr (strLower ("Expected a valid URL, got \"" ++ s ++ "\"")) "required" = false →
     containsStr (strLower ("Expected a valid URL, got \"" ++ s ++ "\"")) "expected a" = true →
      (parseFlat host [(k, Vd.vurl ["http", "https"])] env pfx none none).2 =
        [mkError (pfx ++ k) (some s) ("Expected a valid URL, got \"" ++ s ++ "\"")
          (Vd.vurl ["http", "https"])] ∧
      (mkError (pfx ++ k) (some s) ("Expected a valid URL, got \"" ++ s ++ "\"")
        (Vd.vurl ["http", "https"])).kind = .invalidType) ∧
    (∀ u, host.parseURL s = some u →
     (["http", "https"].contains (replaceColon u.protocol)) = false →
     containsStr (strLower ("URL protocol must be one of [http, https], got \"" ++
       replaceColon u.protocol ++ "\"")) "required" = false →
     containsStr (strLower ("URL protocol must be one of [http, https], got \"" ++
       replaceColon u.protocol ++ "\"")) "type" = false →
     containsStr (strLower ("URL protocol must be one of [http, https], got \"" ++
       replaceColon u.protocol ++ "\"")) "expected a" = false →
     containsStr (strLower ("URL protocol must be one of [http, https], got \"" ++
       replaceColon u.protocol ++ "\"")) "url" = true →
      (parseFlat host [(k, Vd.vurl ["http", "https"])] env pfx none none).2 =
        [mkError (pfx ++ k) (some s) ("URL protocol must be one of [http, https], got \"" ++
          replaceColon u.protocol ++ "\"") (Vd.vurl ["http", "https"])] ∧
      (mkError (pfx ++ k) (some s) ("URL protocol must be one of [http, https], got \"" ++
        replaceColon u.protocol ++ "\"") (Vd.vurl ["http", "https"])).kind =
        .invalidFormat) := by
  refine ⟨?_, ?_, ?_⟩
  · intro hfalse hreq hexp
    have hp : Vd.vemail.parse host (some s) =
        .fail ("Expected a valid email address, got \"" ++ s ++ "\"") := by
      simp [Vd.parse, hs, hfalse]
    constructor
    · rw [parseFlat_singleton, hraw, hp]
    · simp [mkError, isAbsent, hs, detectErrorKind, hreq, hexp]
  · intro hnone hreq hexp
    have hp : (Vd.vurl ["http", "https"]).parse host (some s) =
        .fail ("Expected a valid URL, got \"" ++ s ++ "\"") := by
      simp [Vd.parse, hs, hnone]
    constructor
    · rw [parseFlat_singleton, hraw, hp]
    · simp [mkError, isAbsent, hs, detectErrorKind, hreq, hexp]
  · intro u hu hprot hreq htype hexp hurl
    have hprot' : ¬(replaceColon u.protocol = "http") ∧
        ¬(replaceColon u.protocol = "https") := by simpa using hprot
    have hp : (Vd.vurl ["http", "https"]).parse host (some s) =
        .fail ("URL protocol must be one of [http, https], got \"" ++
          replaceColon u.protocol ++ "\"") := by
      simp [Vd.parse, hs, hu, hprot'.1, hprot'.2, strJoin]
    constructor
    · rw [parseFlat_singleton, hraw, hp]
    · simp [mkError, isAbsent, hs, detectErrorKind, hreq, htype, hexp, hurl]

/-- Witness for the amended C2: the email case at `"not-an-email"` and
the URL protocol case under a host resolving to an `ftp:` URL. -/
theorem C2_amended_witness :
    ((parseFlat host0 [("E", Vd.vemail)] (fun _ => some "not-an-email") "" none none).2 =
      [mkError ("" ++ "E") (some "not-an-email")
        ("Expected a valid email address, got \"" ++ "not-an-email" ++ "\"") Vd.vemail] ∧
     (mkError ("" ++ "E") (some "not-an-email")
       ("Expected a valid email address, got \"" ++ "not-an-email" ++ "\"")
       Vd.vemail).kind = .invalidType) ∧
    ((parseFlat hostFtp [("U", Vd.vurl ["http", "https"])] (fun _ => some "ftp://h") ""
        none none).2 =
      [mkError ("" ++ "U") (some "ftp://h")
        ("URL protocol must be one of [http, https], got \"" ++
          replaceColon (JsUrl.mk "ftp:" "/").protocol ++ "\"") (Vd.vurl ["http", "https"])] ∧
     (mkError ("" ++ "U") (some "ftp://h")
       ("URL protocol must be one of [http, https], got \"" ++
         replaceColon (JsUrl.mk "ftp:" "/").protocol ++ "\"")
       (Vd.vurl ["http", "https"])).kind = .invalidFormat) :=
  ⟨(C2_amended host0 (fun _ => some "not-an-email") "E" "" "not-an-email" rfl
      (by decide)).1 (by decide) (by decide) (by decide),
   (C2_amended hostFtp (fun _ => some "ftp://h") "U" "" "ftp://h" rfl
      (by decide)).2.2 ⟨"ftp:", "/"⟩ rfl (by decide) (by decide) (by decide) (by decide)
      (by decide)⟩

-- ─── C3 ──────────────────────────────────────────────────────────────────────

/-- C3: `validate` returns the empty list exactly when `parse` succeeds,
and otherwise returns precisely the error list carried by the exception
`parse` throws — `validate` is computed by running `parse` itself. -/
theorem C3_validate_refines_parse (g : Guardian) (host : JsHost) (env : Env)
    (nodeEnv : Option String) :
    (g.validate host env nodeEnv = [] ↔ ∃ r, g.parse host env nodeEnv = .ok r) ∧
    (∀ es, g.parse host env nodeEnv = .error es → g.validate host env nodeEnv = es) := by
  refine ⟨⟨?_, ?_⟩, ?_⟩
  · intro hv
    cases hp : g.parse host env nodeEnv with
    | ok r => exact ⟨r, rfl⟩
    | error es =>
      have hne := parse_error_ne_nil g host env nodeEnv hp
      have hval : g.validate host env nodeEnv = es := by
        simp [Guardian.validate, hp]
      rw [hval] at hv
      exact absurd hv hne
  · rintro ⟨r, hp⟩
    simp [Guardian.validate, hp]
  · intro es hp
    simp [Guardian.validate, hp]

/-- Witness for C3 at a concrete failing schema and a concrete succeeding
one. -/
theorem C3_validate_refines_parse_witness :
    (defineEnv [("API_KEY", .validator stringVd)]).validate host0 (fun _ => none) none =
      [mkError "API_KEY" none "Value is required" stringVd] :=
  (C3_validate_refines_parse (defineEnv [("API_KEY", .validator stringVd)]) host0
    (fun _ => none) none).2 [mkError "API_KEY" none "Value is required" stringVd] rfl

-- ─── C6 ──────────────────────────────────────────────────────────────────────

/-- C6: empty string behaves as absence for every validator, base or
wrapped; every built-in base validator fails on both (and the engine
classifies that failure as kind `missing`); `optional()` succeeds with
`undefined` and `default(d)` with `d` on both inputs. -/
theorem C6_absence_normalization (host : JsHost) (v : Vd) (d : JsValue)
    (k pfx : String) (env : Env) (vb : Vd) (hb : vb.isBase = true)
    (habs : isAbsent (env (pfx ++ k)) = true) :
    (v.parse host (some "") = v.parse host none) ∧
    (vb.parse host none = .fail "Value is required" ∧
     vb.parse host (some "") = .fail "Value is required") ∧
    ((Vd.voptional v).parse host none = .ok .vUndef ∧
     (Vd.voptional v).parse host (some "") = .ok .vUndef) ∧
    ((Vd.vdefault v d).parse host none = .ok d ∧
     (Vd.vdefault v d).parse host (some "") = .ok d) ∧
    ((parseFlat host [(k, vb)] env pfx none none).2 =
       [mkError (pfx ++ k) (env (pfx ++ k)) "Value is required" vb] ∧
     (mkError (pfx ++ k) (env (pfx ++ k)) "Value is required" vb).kind = .missing) := by
  have hfail := vd_isBase_parse_absent host vb (env (pfx ++ k)) hb habs
  refine ⟨vd_parse_empty_eq_none host v,
    ⟨vd_isBase_parse_none host vb hb, ?_⟩, ⟨rfl, rfl⟩, ⟨rfl, rfl⟩, ?_, ?_⟩
  · rw [vd_parse_empty_eq_none]
    exact vd_isBase_parse_none host vb hb
  · rw [parseFlat_singleton, hfail]
  · simp [mkError, habs]

/-- Witness for C6 at the number validator and a concrete empty
environment. -/
theorem C6_absence_normalization_witness :
    ((Vd.vnumber none none false).parse host0 (some "") =
      (Vd.vnumber none none false).parse host0 none) ∧
    ((Vd.vnumber none none false).parse host0 none = .fail "Value is required" ∧
     (Vd.vnumber none none false).parse host0 (some "") = .fail "Value is required") ∧
    ((Vd.voptional (Vd.vnumber none none false)).parse host0 none = .ok .vUndef ∧
     (Vd.voptional (Vd.vnumber none none false)).parse host0 (some "") = .ok .vUndef) ∧
    ((Vd.vdefault (Vd.vnumber none none false) (.vNum 3000)).parse host0 none =
       .ok (.vNum 3000) ∧
     (Vd.vdefault (Vd.vnumber none none false) (.vNum 3000)).parse host0 (some "") =
       .ok (.vNum 3000)) ∧
    ((parseFlat host0 [("PORT", Vd.vnumber none none false)] (fun _ => none) "" none none).2 =
       [mkError ("" ++ "PORT") ((fun (_ : String) => (none : Option String)) ("" ++ "PORT"))
          "Value is required" (Vd.vnumber none none false)] ∧
     (mkError ("" ++ "PORT") ((fun (_ : String) => (none : Option String)) ("" ++ "PORT"))
        "Value is required" (Vd.vnumber none none false)).kind = .missing) :=
  C6_absence_normalization host0 (Vd.vnumber none none false) (.vNum 3000)
    "PORT" "" (fun _ => none) (Vd.vnumber none none false) rfl rfl

-- ─── C7 ──────────────────────────────────────────────────────────────────────

/-- C7: the last-applied wrapper governs absence behavior:
`v.optional().default(x)` succeeds with `x` on absent/empty input while
`v.default(x).optional()` succeeds with `undefined`; on present non-empty
input both delegate to the inner validator `v`. -/
theorem C7_wrapper_order (host : JsHost) (v : Vd) (x : JsValue) (s : String)
    (hs : s ≠ "") :
    ((Vd.vdefault (Vd.voptional v) x).parse host none = .ok x) ∧
    ((Vd.vdefault (Vd.voptional v) x).parse host (some "") = .ok x) ∧
    ((Vd.voptional (Vd.vdefault v x)).parse host none = .ok .vUndef) ∧
    ((Vd.voptional (Vd.vdefault v x)).parse host (some "") = .ok .vUndef) ∧
    ((Vd.vdefault (Vd.voptional v) x).parse host (some s) = v.parse host (some s)) ∧
    ((Vd.voptional (Vd.vdefault v x)).parse host (some s) = v.parse host (some s)) := by
  refine ⟨rfl, rfl, rfl, rfl, ?_, ?_⟩ <;> simp [Vd.parse, hs]

/-- Witness for C7 at the string validator, default value `"d"` and
present input `"hello"`. -/
theorem C7_wrapper_order_witness :
    ((Vd.vdefault (Vd.voptional stringVd) (.vStr "d")).parse host0 none = .ok (.vStr "d")) ∧
    ((Vd.vdefault (Vd.voptional stringVd) (.vStr "d")).parse host0 (some "") =
      .ok (.vStr "d")) ∧
    ((Vd.voptional (Vd.vdefault stringVd (.vStr "d"))).parse host0 none = .ok .vUndef) ∧
    ((Vd.voptional (Vd.vdefault stringVd (.vStr "d"))).parse host0 (some "") =
      .ok .vUndef) ∧
    ((Vd.vdefault (Vd.voptional stringVd) (.vStr "d")).parse host0 (some "hello") =
      stringVd.parse host0 (some "hello")) ∧
    ((Vd.voptional (Vd.vdefault stringVd (.vStr "d"))).parse host0 (some "hello") =
      stringVd.parse host0 (some "hello")) :=
  C7_wrapper_order host0 stringVd (.vStr "d") "hello" (by decide)

-- ─── C8 ──────────────────────────────────────────────────────────────────────

theorem okFail_length (host : JsHost) (env : Env) (pfx : String) (l : FlatShape) :
    (l.filterMap (okCase host env pfx)).length +
      (l.filterMap (failCase host env pfx)).length = l.length := by
  induction l with
  | nil => rfl
  | cons kv t ih =>
    cases h : kv.2.parse host (env (pfx ++ kv.1)) with
    | ok v =>
      have ho : okCase host env pfx kv = some (kv.1, v) := by simp [okCase, h]
      have hf : failCase host env pfx kv = none := by simp [failCase, h]
      rw [List.filterMap_cons, List.filterMap_cons]
      simp only [ho, hf, List.length_cons]
      omega
    | fail m =>
      have ho : okCase host env pfx kv = none := by simp [okCase, h]
      have hf : failCase host env pfx kv =
          some (mkError (pfx ++ kv.1) (env (pfx ++ kv.1)) m kv.2) := by
        simp [failCase, h]
      rw [List.filterMap_cons, List.filterMap_cons]
      simp only [ho, hf, List.length_cons]
      omega

theorem foldBase_flat_missing (host : JsHost) (ne : Option String) :
    ∀ sch : List (String × Vd), (∀ kv ∈ sch, kv.2.isBase = true) →
    ∀ acc : EngineSt,
    ((sch.map fun kv => (kv.1, SchemaEntry.validator kv.2)).foldl
        (baseStep host (fun _ => none) ne) acc) =
      (acc.1, acc.2 ++ sch.map fun kv => mkError kv.1 none "Value is required" kv.2) := by
  intro sch
  induction sch with
  | nil => intro _ acc; simp
  | cons kv t ih =>
    intro hb acc
    have hkv := hb kv (List.mem_cons_self kv t)
    have hbt : ∀ kv' ∈ t, kv'.2.isBase = true :=
      fun kv' hm => hb kv' (List.mem_cons_of_mem kv hm)
    rw [List.map_cons, List.foldl_cons]
    have hstep : baseStep host (fun _ => none) ne acc (kv.1, .validator kv.2) =
        (acc.1, acc.2 ++ [mkError kv.1 none "Value is required" kv.2]) := by
      simp [baseStep, vd_isBase_parse_none host kv.2 hkv]
    rw [hstep, ih hbt]
    simp

/-- C8: validation never short-circuits.  First part: for every flat
schema, the numbers of produced values and errors sum to the number of
merged-shape fields — every field yields exactly one outcome.  Second
part: a flat guardian schema of N required (base) fields validated
against the empty environment yields exactly N errors, one per field in
declaration order, each of kind `missing`. -/
theorem C8_all_errors_reported (host : JsHost) :
    (∀ (shape : FlatShape) (env : Env) (pfx : String) (ne : Option String)
       (es : Option (List (String × FlatShape))),
       ((mergedShape shape ne es).map Prod.fst).Nodup →
       (parseFlat host shape env pfx ne es).1.length +
         (parseFlat host shape env pfx ne es).2.length =
         (mergedShape shape ne es).length) ∧
    (∀ sch : List (String × Vd), (∀ kv ∈ sch, kv.2.isBase = true) →
      ∀ ne : Option String,
      ((defineEnv (sch.map fun kv => (kv.1, SchemaEntry.validator kv.2))).validate host
          (fun _ => none) ne).map (fun e => (e.key, e.kind)) =
        sch.map fun kv => (kv.1, ErrorKind.missing)) := by
  constructor
  · intro shape env pfx ne es hnd
    rw [parseFlat_values_eq host shape env pfx ne es hnd, parseFlat_errors_eq]
    exact okFail_length host env pfx _
  · intro sch hb ne
    have hstate : (defineEnv (sch.map fun kv =>
        (kv.1, SchemaEntry.validator kv.2))).parseState host (fun _ => none) ne =
        ([], sch.map fun kv => mkError kv.1 none "Value is required" kv.2) := by
      show overridePass host (activeOverrides none ne) (fun _ => none)
        (basePass host _ (fun _ => none) ne) = _
      rw [show activeOverrides none ne = [] from rfl]
      show basePass host _ (fun _ => none) ne = _
      unfold basePass
      rw [show (defineEnv (sch.map fun kv => (kv.1, SchemaEntry.validator kv.2))).schema =
        sch.map fun kv => (kv.1, SchemaEntry.validator kv.2) from rfl]
      rw [foldBase_flat_missing host ne sch hb ([], [])]
      simp
    by_cases hnil : sch = []
    · subst hnil
      have hp : (defineEnv (([] : List (String × Vd)).map fun kv =>
          (kv.1, SchemaEntry.validator kv.2))).parse host (fun _ => none) ne = .ok [] := by
        rw [parse_def, hstate]
        simp
      simp only [List.map_nil] at hp ⊢
      simp [Guardian.validate, hp]
    · have herr : (sch.map fun kv => mkError kv.1 none "Value is required" kv.2) ≠ [] := by
        simpa using hnil
      have hp : (defineEnv (sch.map fun kv =>
          (kv.1, SchemaEntry.validator kv.2))).parse host (fun _ => none) ne =
          .error (sch.map fun kv => mkError kv.1 none "Value is required" kv.2) := by
        rw [parse_def, hstate]
        simp [herr]
      have hv : (defineEnv (sch.map fun kv =>
          (kv.1, SchemaEntry.validator kv.2))).validate host (fun _ => none) ne =
          sch.map fun kv => mkError kv.1 none "Value is required" kv.2 := by
        simp [Guardian.validate, hp]
      rw [hv, List.map_map]
      simp [Function.comp, mkError, isAbsent]

/-- Witness for C8 at the spec's three-required-field scenario. -/
theorem C8_all_errors_reported_witness :
    ((defineEnv ([("DATABASE_URL", Vd.vurl ["http", "https"]), ("API_KEY", stringVd),
        ("PORT", Vd.vnumber none none false)].map fun kv =>
        (kv.1, SchemaEntry.validator kv.2))).validate host0
        (fun _ => none) none).map (fun e => (e.key, e.kind)) =
      [("DATABASE_URL", ErrorKind.missing), ("API_KEY", ErrorKind.missing),
       ("PORT", ErrorKind.missing)] :=
  (C8_all_errors_reported host0).2
    [("DATABASE_URL", Vd.vurl ["http", "https"]), ("API_KEY", stringVd),
     ("PORT", Vd.vnumber none none false)]
    (by intro kv hm; fin_cases hm <;> rfl) none

-- ─── C9 ──────────────────────────────────────────────────────────────────────

theorem okCase_keys_sublist (host : JsHost) (env : Env) (pfx : String) (l : FlatShape) :
    ((l.filterMap (okCase host env pfx)).map Prod.fst).Sublist (l.map Prod.fst) := by
  induction l with
  | nil => simp
  | cons kv t ih =>
    cases h : kv.2.parse host (env (pfx ++ kv.1)) with
    | ok v =>
      have ho : okCase host env pfx kv = some (kv.1, v) := by simp [okCase, h]
      rw [List.filterMap_cons]
      simp only [ho, List.map_cons]
      exact ih.cons₂ _
    | fail m =>
      have ho : okCase host env pfx kv = none := by simp [okCase, h]
      rw [List.filterMap_cons]
      simp only [ho, List.map_cons]
      exact ih.cons _

/-- C9: group prefixing round-trips.  General part: for every field of
the merged shape, a validator success on the raw value of the prefixed
environment key is stored under the unprefixed local key, and a failure
is recorded as an error carrying the fully-qualified prefixed key.
Concrete part: `group({HOST: string()}, {prefix:"DB_"})` under key `db`
parsed against `{DB_HOST:"x"}` yields `{db:{HOST:"x"}}`, and parsed
against `{}` yields an error with key `"DB_HOST"`. -/
theorem C9_group_prefix_roundtrip (host : JsHost) (env : Env) (pfx : String)
    (shape : FlatShape) (ne : Option String) (es : Option (List (String × FlatShape)))
    (k : String) (vd : Vd) (hmem : (k, vd) ∈ mergedShape shape ne es)
    (hnd : ((mergedShape shape ne es).map Prod.fst).Nodup) :
    ((∀ v, vd.parse host (env (pfx ++ k)) = .ok v →
        (parseFlat host shape env pfx ne es).1.lookup k = some v) ∧
     (∀ m, vd.parse host (env (pfx ++ k)) = .fail m →
        mkError (pfx ++ k) (env (pfx ++ k)) m vd ∈ (parseFlat host shape env pfx ne es).2)) ∧
    ((defineEnv [("db", .grp ⟨some "DB_", none, [("HOST", stringVd)]⟩)]).parse host0
        (fun key => if key = "DB_HOST" then some "x" else none) none =
      .ok [("db", .obj [("HOST", .vStr "x")])]) ∧
    ((defineEnv [("db", .grp ⟨some "DB_", none, [("HOST", stringVd)]⟩)]).parse host0
        (fun _ => none) none =
      .error [{ key := "DB_HOST", kind := .missing, message := "Value is required",
                received := none, expected := "string" }]) := by
  refine ⟨⟨?_, ?_⟩, rfl, rfl⟩
  · intro v hok
    rw [parseFlat_values_eq host shape env pfx ne es hnd]
    apply lookup_eq_some_of_mem_nodup
    · exact (okCase_keys_sublist host env pfx _).nodup hnd
    · exact List.mem_filterMap.mpr ⟨(k, vd), hmem, by simp [okCase, hok]⟩
  · intro m hfail
    rw [parseFlat_errors_eq]
    exact List.mem_filterMap.mpr ⟨(k, vd), hmem, by simp [failCase, hfail]⟩

/-- Witness for C9 at the concrete `DB_`-prefixed group. -/
theorem C9_group_prefix_roundtrip_witness :
    (parseFlat host0 [("HOST", stringVd)]
      (fun key => if key = "DB_HOST" then some "x" else none) "DB_" none none).1.lookup
      "HOST" = some (.vStr "x") :=
  ((C9_group_prefix_roundtrip host0
      (fun key => if key = "DB_HOST" then some "x" else none) "DB_"
      [("HOST", stringVd)] none none "HOST" stringVd
      (List.mem_singleton.mpr rfl) (by decide)).1.1
    (.vStr "x") rfl)

-- ─── C10 ─────────────────────────────────────────────────────────────────────

theorem okCase_mem_key (host : JsHost) (env : Env) (pfx : String) {l : FlatShape}
    {kv' : String × JsValue} (h : kv' ∈ l.filterMap (okCase host env pfx)) :
    kv'.1 ∈ l.map Prod.fst := by
  rcases List.mem_filterMap.mp h with ⟨kv, hm, hoc⟩
  unfold okCase at hoc
  cases hp : kv.2.parse host (env (pfx ++ kv.1)) <;> rw [hp] at hoc
  · next v =>
    injection hoc with h1
    exact List.mem_map.mpr ⟨kv, hm, by rw [← h1]⟩
  · cases hoc

theorem failCase_mem_key (host : JsHost) (env : Env) (pfx : String) {l : FlatShape}
    {e : EnvError} (h : e ∈ l.filterMap (failCase host env pfx)) :
    ∃ kv ∈ l, e.key = pfx ++ kv.1 := by
  rcases List.mem_filterMap.mp h with ⟨kv, hm, hfc⟩
  unfold failCase at hfc
  cases hp : kv.2.parse host (env (pfx ++ kv.1)) <;> rw [hp] at hfc
  · cases hfc
  · next m =>
    injection hfc with h1
    exact ⟨kv, hm, by rw [← h1]; rfl⟩

theorem contribution_count (host : JsHost) (env : Env) (pfx : String) :
    ∀ (l : FlatShape) (k : String), (l.map Prod.fst).Nodup → k ∈ l.map Prod.fst →
    ((l.filterMap (okCase host env pfx)).filter fun kv => kv.1 == k).length +
    ((l.filterMap (failCase host env pfx)).filter fun e => e.key == pfx ++ k).length = 1 := by
  intro l
  induction l with
  | nil => intro k _ hk; simp at hk
  | cons kv t ih =>
    intro k hnd hk
    simp only [List.map_cons, List.nodup_cons] at hnd
    by_cases hek : kv.1 = k
    · have hknt : k ∉ t.map Prod.fst := hek ▸ hnd.1
      have hok0 : (t.filterMap (okCase host env pfx)).filter (fun kv => kv.1 == k) = [] := by
        apply List.filter_eq_nil_iff.mpr
        intro x hx
        have hxk := okCase_mem_key host env pfx hx
        simp only [str_beq_eq_decide, decide_eq_true_eq]
        intro he
        exact hknt (he ▸ hxk)
      have hfail0 : (t.filterMap (failCase host env pfx)).filter
          (fun e => e.key == pfx ++ k) = [] := by
        apply List.filter_eq_nil_iff.mpr
        intro e hx
        rcases failCase_mem_key host env pfx hx with ⟨kv', hm', hkey⟩
        simp only [str_beq_eq_decide, decide_eq_true_eq]
        intro he
        have hcan : pfx ++ kv'.1 = pfx ++ k := by rw [← hkey, he]
        exact hknt (str_append_left_cancel hcan ▸ List.mem_map.mpr ⟨kv', hm', rfl⟩)
      cases hp : kv.2.parse host (env (pfx ++ kv.1)) with
      | ok v =>
        have ho : okCase host env pfx kv = some (kv.1, v) := by simp [okCase, hp]
        have hf : failCase host env pfx kv = none := by simp [failCase, hp]
        rw [List.filterMap_cons, List.filterMap_cons]
        simp only [ho, hf]
        rw [List.filter_cons]
        simp [hek, hok0, hfail0]
      | fail m =>
        have ho : okCase host env pfx kv = none := by simp [okCase, hp]
        have hf : failCase host env pfx kv =
            some (mkError (pfx ++ kv.1) (env (pfx ++ kv.1)) m kv.2) := by
          simp [failCase, hp]
        rw [List.filterMap_cons, List.filterMap_cons]
        simp only [ho, hf]
        rw [List.filter_cons]
        simp [mkError, hek, hok0, hfail0]
    · have hkt : k ∈ t.map Prod.fst := by
        rcases List.mem_cons.mp hk with h | h
        · exact absurd h.symm hek
        · exact h
      have hbneq : ((kv.1 : String) == k) = false := beq_eq_false_iff_ne.mpr hek
      have hbneq2 : ((pfx ++ kv.1 : String) == pfx ++ k) = false :=
        beq_eq_false_iff_ne.mpr (fun he => hek (str_append_left_cancel he))
      cases hp : kv.2.parse host (env (pfx ++ kv.1)) with
      | ok v =>
        have ho : okCase host env pfx kv = some (kv.1, v) := by simp [okCase, hp]
        have hf : failCase host env pfx kv = none := by simp [failCase, hp]
        rw [List.filterMap_cons, List.filterMap_cons]
        simp only [ho, hf]
        rw [List.filter_cons]
        simp only [hbneq, Bool.false_eq_true, if_false]
        exact ih k hnd.2 hkt
      | fail m =>
        have ho : okCase host env pfx kv = none := by simp [okCase, hp]
        have hf : failCase host env pfx kv =
            some (mkError (pfx ++ kv.1) (env (pfx ++ kv.1)) m kv.2) := by
          simp [failCase, hp]
        rw [List.filterMap_cons, List.filterMap_cons]
        simp only [ho, hf]
        rw [List.filter_cons]
        simp only [mkError, hbneq2, Bool.false_eq_true, if_false]
        exact ih k hnd.2 hkt

/-- C10: a group's `envSpecific` override for the active environment name
can introduce fields absent from the base shape: such a key joins the
merged shape, is read from the environment under `prefix ++ key`, and
contributes exactly one value or exactly one error to the group's result. -/
theorem C10_override_new_fields (host : JsHost) (env : Env) (pfx n : String)
    (shape : FlatShape) (es : List (String × FlatShape)) (ov : FlatShape)
    (k : String) (vd : Vd) (hn : n ≠ "") (hlook : es.lookup n = some ov)
    (hmem : (k, vd) ∈ ov) (hbase : shape.lookup k = none)
    (hnd : ((mergeShape shape ov).map Prod.fst).Nodup) :
    (k, vd) ∈ mergedShape shape (some n) (some es) ∧
    (((parseFlat host shape env pfx (some n) (some es)).1.filter
        fun kv => kv.1 == k).length +
      ((parseFlat host shape env pfx (some n) (some es)).2.filter
        fun e => e.key == pfx ++ k).length = 1) ∧
    (∀ v, vd.parse host (env (pfx ++ k)) = .ok v →
      (k, v) ∈ (parseFlat host shape env pfx (some n) (some es)).1) ∧
    (∀ m, vd.parse host (env (pfx ++ k)) = .fail m →
      mkError (pfx ++ k) (env (pfx ++ k)) m vd ∈
        (parseFlat host shape env pfx (some n) (some es)).2) := by
  have hms : mergedShape shape (some n) (some es) = mergeShape shape ov := by
    simp [mergedShape, hn, hlook]
  have hmem' : (k, vd) ∈ mergeShape shape ov := by
    unfold mergeShape
    apply List.mem_append_right
    exact List.mem_filter.mpr ⟨hmem, by simp [hbase]⟩
  have hnd' : ((mergedShape shape (some n) (some es)).map Prod.fst).Nodup := by
    rw [hms]; exact hnd
  refine ⟨hms ▸ hmem', ?_, ?_, ?_⟩
  · rw [parseFlat_values_eq host shape env pfx _ _ hnd', parseFlat_errors_eq, hms]
    exact contribution_count host env pfx _ k hnd (List.mem_map.mpr ⟨(k, vd), hmem', rfl⟩)
  · intro v hok
    rw [parseFlat_values_eq host shape env pfx _ _ hnd', hms]
    exact List.mem_filterMap.mpr ⟨(k, vd), hmem', by simp [okCase, hok]⟩
  · intro m hfail
    rw [parseFlat_errors_eq, hms]
    exact List.mem_filterMap.mpr ⟨(k, vd), hmem', by simp [failCase, hfail]⟩

/-- Witness for C10: an override adds field `B` (absent from the base
shape `{A}`) and the merged parse stores exactly its one value. -/
theorem C10_override_new_fields_witness :
    ((("B" : String), stringVd) ∈
      mergedShape [(("A" : String), stringVd)] (some "test")
        (some [("test", [("B", stringVd)])])) ∧
    (((parseFlat host0 [("A", stringVd)]
        (fun key => if key = "P_A" then some "a" else
          if key = "P_B" then some "b" else none) "P_" (some "test")
        (some [("test", [("B", stringVd)])])).1.filter
        fun kv => kv.1 == "B").length +
      ((parseFlat host0 [("A", stringVd)]
        (fun key => if key = "P_A" then some "a" else
          if key = "P_B" then some "b" else none) "P_" (some "test")
        (some [("test", [("B", stringVd)])])).2.filter
        fun e => e.key == "P_" ++ "B").length = 1) ∧
    (("B", JsValue.vStr "b") ∈ (parseFlat host0 [("A", stringVd)]
        (fun key => if key = "P_A" then some "a" else
          if key = "P_B" then some "b" else none) "P_" (some "test")
        (some [("test", [("B", stringVd)])])).1) :=
  ⟨(C10_override_new_fields host0
      (fun key => if key = "P_A" then some "a" else
        if key = "P_B" then some "b" else none) "P_" "test"
      [("A", stringVd)] [("test", [("B", stringVd)])] [("B", stringVd)]
      "B" stringVd (by decide) rfl (List.mem_singleton.mpr rfl) rfl (by decide)).1,
   (C10_override_new_fields host0
      (fun key => if key = "P_A" then some "a" else
        if key = "P_B" then some "b" else none) "P_" "test"
      [("A", stringVd)] [("test", [("B", stringVd)])] [("B", stringVd)]
      "B" stringVd (by decide) rfl (List.mem_singleton.mpr rfl) rfl (by decide)).2.1,
   (C10_override_new_fields host0
      (fun key => if key = "P_A" then some "a" else
        if key = "P_B" then some "b" else none) "P_" "test"
      [("A", stringVd)] [("test", [("B", stringVd)])] [("B", stringVd)]
      "B" stringVd (by decide) rfl (List.mem_singleton.mpr rfl) rfl (by decide)).2.2.1
      (.vStr "b") rfl⟩

-- ─── C4 ──────────────────────────────────────────────────────────────────────

/-- C4: for a key of the active top-level override table, the override
validator's outcome alone determines the final value/error state for that
key (assuming the key occurs once in the table and at most one
accumulated error carries it, as is the case for schemas built from JS
objects): an override success stores the value under the key and leaves
no error for it; an override failure leaves exactly the override's error
for it — updated in place when one existed, appended otherwise — even
where the base outcome succeeded. -/
theorem C4_override_precedence (host : JsHost) (env : Env) (k : String) (vd : Vd) :
    ∀ ovs : FlatShape, (k, vd) ∈ ovs → (ovs.map Prod.fst).Nodup →
    ∀ st : EngineSt, (st.2.filter fun e => e.key == k).length ≤ 1 →
    (∀ v, vd.parse host (env k) = .ok v →
      (overridePass host ovs env st).1.lookup k = some (.scalar v) ∧
      (overridePass host ovs env st).2.filter (fun e => e.key == k) = []) ∧
    (∀ m, vd.parse host (env k) = .fail m →
      (overridePass host ovs env st).2.filter (fun e => e.key == k) =
        [mkError k (env k) m vd]) := by
  intro ovs
  induction ovs with
  | nil => intro hmem; cases hmem
  | cons kv t ih =>
    intro hmem hnd st hcnt
    rcases kv with ⟨k1, vd1⟩
    simp only [List.map_cons, List.nodup_cons] at hnd
    have hov : overridePass host ((k1, vd1) :: t) env st =
        overridePass host t env (applyOverride host env st (k1, vd1)) := rfl
    by_cases hek : k1 = k
    · subst hek
      have hkv : vd1 = vd := by
        rcases List.mem_cons.mp hmem with h | h
        · exact (Prod.mk.injEq _ _ _ _ ▸ h.symm :
            (k1 = k1 ∧ vd1 = vd)).2.symm ▸ rfl
        · exact absurd (List.mem_map.mpr ⟨(k1, vd), h, rfl⟩) hnd.1
      subst hkv
      have htk : ∀ kv' ∈ t, kv'.1 ≠ k1 := by
        intro kv' hm he
        exact hnd.1 (he ▸ List.mem_map.mpr ⟨kv', hm, rfl⟩)
      have htkb : ∀ kv' ∈ t, ((fun s => s == k1) kv'.1) = false := by
        intro kv' hm
        exact beq_eq_false_iff_ne.mpr (htk kv' hm)
      constructor
      · intro v hok
        have hstep : applyOverride host env st (k1, vd1) =
            (setKey st.1 k1 (.scalar v), eraseFirstByKey st.2 k1) := by
          simp [applyOverride, hok]
        rw [hov, hstep]
        constructor
        · rw [overridePass_values_frame host env t htk _]
          exact lookup_setKey_self _ _ _
        · rw [overridePass_errors_frame host env t (fun s => s == k1) htkb _]
          exact filterKey_erase_self hcnt
      · intro m hfail
        cases hb : st.2.any (fun er => er.key == k1) with
        | true =>
          have hstep : applyOverride host env st (k1, vd1) =
              (st.1, updateFirstByKey st.2 k1 (mkError k1 (env k1) m vd1)) := by
            simp [applyOverride, hfail, hb]
          rw [hov, hstep]
          rw [overridePass_errors_frame host env t (fun s => s == k1) htkb _]
          exact filterKey_update_self rfl hcnt hb
        | false =>
          have hstep : applyOverride host env st (k1, vd1) =
              (st.1, st.2 ++ [mkError k1 (env k1) m vd1]) := by
            simp [applyOverride, hfail, hb]
          rw [hov, hstep]
          rw [overridePass_errors_frame host env t (fun s => s == k1) htkb _]
          exact filterKey_append_new rfl hb
    · have hmem' : (k, vd) ∈ t := by
        rcases List.mem_cons.mp hmem with h | h
        · exact absurd (congrArg Prod.fst h).symm hek
        · exact h
      have hpe : ((fun s => s == k) (k1 : String)) = false := beq_eq_false_iff_ne.mpr hek
      have hcnt' : (((applyOverride host env st (k1, vd1)).2.filter
          fun e => e.key == k)).length ≤ 1 := by
        rw [applyOverride_errors_frame host env st (k1, vd1) (fun s => s == k) hpe]
        exact hcnt
      rw [hov]
      exact ih hmem' hnd.2 (applyOverride host env st (k1, vd1)) hcnt'

/-- Witness for C4: a base error for key `K` flipped to a value by a
succeeding override. -/
theorem C4_override_precedence_witness :
    ((overridePass host0 [("K", stringVd)] (fun _ => some "v")
        ([], [mkError "K" none "Value is required" stringVd])).1.lookup "K" =
      some (.scalar (.vStr "v")) ∧
     (overridePass host0 [("K", stringVd)] (fun _ => some "v")
        ([], [mkError "K" none "Value is required" stringVd])).2.filter
        (fun e => e.key == "K") = []) :=
  (C4_override_precedence host0 (fun _ => some "v") "K" stringVd
      [("K", stringVd)] (List.mem_singleton.mpr rfl) (by decide)
      ([], [mkError "K" none "Value is required" stringVd]) (by decide)).1
    (.vStr "v") rfl

-- ─── C5 ──────────────────────────────────────────────────────────────────────

/-- The fully-qualified environment keys of a group's merged shape. -/
def groupEnvKeys (gr : GroupS) (ne : Option String) : List String :=
  (mergedShape gr.shape ne gr.envSpecific).map fun kv => gr.pfx.getD "" ++ kv.1

/-- C5 counterexample: a `forEnv` override whose key coincides with a
group's top-level key rewrites the stored nested object — the top-level
override pass does not leave group keys untouched.  With the override
table, key `db` holds the override's scalar; without it, the group's
nested object. -/
theorem C5_counterexample :
    ((defineEnv [("db", .grp ⟨some "DB_", none, [("HOST", stringVd)]⟩)]).forEnv
        [("dev", [("db", stringVd)])]).parse host0
      (fun key => if key = "db" then some "x" else
        if key = "DB_HOST" then some "h" else none) (some "dev") =
      .ok [("db", .scalar (.vStr "x"))] ∧
    (defineEnv [("db", .grp ⟨some "DB_", none, [("HOST", stringVd)]⟩)]).parse host0
      (fun key => if key = "db" then some "x" else
        if key = "DB_HOST" then some "h" else none) (some "dev") =
      .ok [("db", .obj [("HOST", .vStr "h")])] ∧
    ResVal.scalar (.vStr "x") ≠ ResVal.obj [("HOST", .vStr "h")] :=
  ⟨rfl, rfl, by decide⟩

theorem baseStep_values_ne (host : JsHost) (env : Env) (ne : Option String)
    (acc : EngineSt) (kv : String × SchemaEntry) {G : String} (h : kv.1 ≠ G) :
    (baseStep host env ne acc kv).1.lookup G = acc.1.lookup G := by
  rcases kv with ⟨k1, entry⟩
  cases entry with
  | grp g =>
    simp only [baseStep]
    exact lookup_setKey_ne _ _ (Ne.symm h)
  | validator vd =>
    cases hp : vd.parse host (env k1) with
    | ok v =>
      simp only [baseStep, hp]
      exact lookup_setKey_ne _ _ (Ne.symm h)
    | fail m =>
      simp only [baseStep, hp]

theorem foldBase_values_frame (host : JsHost) (env : Env) (ne : Option String) :
    ∀ (schema : Schema) {G : String}, (∀ kv ∈ schema, kv.1 ≠ G) →
    ∀ st : EngineSt, (schema.foldl (baseStep host env ne) st).1.lookup G = st.1.lookup G := by
  intro schema
  induction schema with
  | nil => intro G _ st; rfl
  | cons kv t ih =>
    intro G h st
    rw [List.foldl_cons]
    rw [ih (fun kv' hm => h kv' (List.mem_cons_of_mem kv hm)) _]
    exact baseStep_values_ne host env ne st kv (h kv (List.mem_cons_self kv t))

theorem basePass_lookup_group (host : JsHost) (env : Env) (ne : Option String) :
    ∀ schema : Schema, (schema.map Prod.fst).Nodup →
    ∀ (G : String) (gr : GroupS), (G, SchemaEntry.grp gr) ∈ schema →
    ∀ st : EngineSt, st.1.lookup G = none →
    (schema.foldl (baseStep host env ne) st).1.lookup G =
      some (.obj (parseFlat host gr.shape env (gr.pfx.getD "") ne gr.envSpecific).1) := by
  intro schema
  induction schema with
  | nil => intro _ G gr hmem; cases hmem
  | cons kv t ih =>
    intro hnd G gr hmem st hst
    rcases kv with ⟨k1, entry⟩
    simp only [List.map_cons, List.nodup_cons] at hnd
    by_cases hek : k1 = G
    · subst hek
      have hent : entry = .grp gr := by
        rcases List.mem_cons.mp hmem with h | h
        · exact ((Prod.mk.injEq _ _ _ _).mp h.symm).2
        · exact absurd (List.mem_map.mpr ⟨(k1, SchemaEntry.grp gr), h, rfl⟩) hnd.1
      subst hent
      rw [List.foldl_cons]
      have hstep : baseStep host env ne st (k1, .grp gr) =
          (setKey st.1 k1
            (.obj (parseFlat host gr.shape env (gr.pfx.getD "") ne gr.envSpecific).1),
           st.2 ++ (parseFlat host gr.shape env (gr.pfx.getD "") ne gr.envSpecific).2) := by
        simp [baseStep]
      rw [hstep]
      have htk : ∀ kv' ∈ t, kv'.1 ≠ k1 := by
        intro kv' hm he
        exact hnd.1 (he ▸ List.mem_map.mpr ⟨kv', hm, rfl⟩)
      rw [foldBase_values_frame host env ne t htk _]
      exact lookup_setKey_self _ _ _
    · have hmem' : (G, SchemaEntry.grp gr) ∈ t := by
        rcases List.mem_cons.mp hmem with h | h
        · exact absurd (congrArg Prod.fst h).symm hek
        · exact h
      rw [List.foldl_cons]
      apply ih hnd.2 G gr hmem'
      rw [baseStep_values_ne host env ne st (k1, entry) (by simpa using hek)]
      exact hst

/-- C5 corrected: the top-level override pass leaves a group's stored
nested object and its prefixed error entries unchanged provided no
active override key coincides with the group's top-level key or with one
of its prefixed field keys; with such a collision it can overwrite them
(see the counterexample).  The value under the group key equals the
group's `parseFlat` object with or without the override table, and the
error entries with the group's prefixed keys are the same lists. -/
theorem C5_amended (host : JsHost) (schema : Schema) (env : Env) (ne : Option String)
    (es : List (String × FlatShape)) (G : String) (gr : GroupS)
    (hmem : (G, SchemaEntry.grp gr) ∈ schema) (hnd : (schema.map Prod.fst).Nodup)
    (hdisj : ∀ kv ∈ activeOverrides (some es) ne, kv.1 ≠ G ∧
      ((groupEnvKeys gr ne).contains kv.1) = false) :
    ((Guardian.mk schema (some es)).parseState host env ne).1.lookup G =
      ((Guardian.mk schema none).parseState host env ne).1.lookup G ∧
    ((Guardian.mk schema (some es)).parseState host env ne).1.lookup G =
      some (.obj (parseFlat host gr.shape env (gr.pfx.getD "") ne gr.envSpecific).1) ∧
    ((Guardian.mk schema (some es)).parseState host env ne).2.filter
        (fun e => (groupEnvKeys gr ne).contains e.key) =
      ((Guardian.mk schema none).parseState host env ne).2.filter
        (fun e => (groupEnvKeys gr ne).contains e.key) := by
  have hbaseG : (basePass host schema env ne).1.lookup G =
      some (.obj (parseFlat host gr.shape env (gr.pfx.getD "") ne gr.envSpecific).1) :=
    basePass_lookup_group host env ne schema hnd G gr hmem ([], []) (by simp [List.lookup])
  have hN : (Guardian.mk schema none).parseState host env ne =
      basePass host schema env ne := rfl
  have hY : (Guardian.mk schema (some es)).parseState host env ne =
      overridePass host (activeOverrides (some es) ne) env
        (basePass host schema env ne) := rfl
  have hvals : ((Guardian.mk schema (some es)).parseState host env ne).1.lookup G =
      (basePass host schema env ne).1.lookup G := by
    rw [hY]
    exact overridePass_values_frame host env _ (fun kv hm => (hdisj kv hm).1) _
  refine ⟨?_, ?_, ?_⟩
  · rw [hvals, hN]
  · rw [hvals]
    exact hbaseG
  · rw [hY, hN]
    exact overridePass_errors_frame host env _
      (fun s => (groupEnvKeys gr ne).contains s) (fun kv hm => (hdisj kv hm).2) _

/-- Witness for the amended C5: an override for key `LOG` leaves the
`DB_`-prefixed group under key `db` untouched. -/
theorem C5_amended_witness :
    ((Guardian.mk [("db", .grp ⟨some "DB_", none, [("HOST", stringVd)]⟩)]
        (some [("dev", [("LOG", stringVd)])])).parseState host0
      (fun key => if key = "DB_HOST" then some "h" else none) (some "dev")).1.lookup "db" =
      some (.obj (parseFlat host0 [("HOST", stringVd)]
        (fun key => if key = "DB_HOST" then some "h" else none) "DB_" (some "dev") none).1) :=
  (C5_amended host0 [("db", .grp ⟨some "DB_", none, [("HOST", stringVd)]⟩)]
      (fun key => if key = "DB_HOST" then some "h" else none) (some "dev")
      [("dev", [("LOG", stringVd)])] "db" ⟨some "DB_", none, [("HOST", stringVd)]⟩
      (List.mem_singleton.mpr rfl) (by decide)
      (by
        intro kv hm
        have hkv : kv = ("LOG", stringVd) := List.mem_singleton.mp hm
        subst hkv
        exact ⟨by decide, by decide⟩)).2.1

end GuardianEnv
